import Mathlib

/-!
# Verification of the Omega tank-programming interpreter

Shallow embedding of the repository `Tduncan13/Omega` (files
`src/omega/src/world/world.ts`, `src/omega/src/enemy/enemy.ts`,
`src/omega/src/interpreter/interpreter.ts`).  JS numbers that only ever
hold integers in this program (grid coordinates, health, expression
values) are embedded as `Int`; the mutable `World`/`Runtime` objects are
embedded as immutable structures threaded through pure functions.  The
call stack `rt.stack` is a JS array pushed/popped at the end; we model it
as a `List` whose HEAD is the top of the stack (the array's last element).
-/

namespace OmegaTanks

/-- `GRID` from `world.ts` (`export const GRID = 20`). -/
def GRID : Int := 20

/-- `clamp` from `util` (`Math.max(lo, Math.min(hi, v))`). -/
def clamp (v lo hi : Int) : Int := max lo (min hi v)

/-- `DIRS` from `util`: direction index 0=up, 1=right, 2=down, 3=left to a
unit grid vector `(dx, dy)`.  Indexing out of range cannot occur while the
facing invariant `dir < 4` holds; the catch-all arm is never reached then. -/
def DIRS : Nat → Int × Int
  | 0 => (0, -1)
  | 1 => (1, 0)
  | 2 => (0, 1)
  | 3 => (-1, 0)
  | _ => (0, 0)

/-- `Tank` from `tanks.ts`: position, facing direction (`0|1|2|3` in TS,
here a `Nat` whose bound `< 4` is proved as an invariant), health. -/
structure Tank where
  x : Int
  y : Int
  dir : Nat
  hp : Int
  deriving Repr, DecidableEq

/-- `World` from `world.ts`. -/
structure World where
  player : Tank
  enemy : Tank
  tick : Int
  message : String
  deriving Repr, DecidableEq

/-- `makeInitialWorld` from `world.ts`: player `(2, GRID-3)` facing up,
enemy `(GRID-3, 2)` facing down, both at 100 HP. -/
def makeInitialWorld : World :=
  { player := { x := 2, y := GRID - 3, dir := 0, hp := 100 }
    enemy := { x := GRID - 3, y := 2, dir := 2, hp := 100 }
    tick := 0
    message := "" }

/-- A finite JS number as this interpreter can hold one: the exact
decimal `mant / 10 ^ fracDigits`.  Every value the interpreter itself
computes is an integer (`fracDigits = 0`); non-integer values enter only
through parsed numeric literals such as `2.5`.  Two deliberate scope
limits, both outside every claim's inputs: the value carried is the
exact written decimal (IEEE-754 rounding of a literal to the nearest
double is floating point and is not modelled), and the non-finite
`Infinity` forms have no embedding here (see `jsNumber`).  Zero is
always represented as `⟨0, 0⟩` — the parser normalizes it — so the
representational equality below coincides with the JS `===` value test
on every value the program constructs. -/
structure JSNum where
  mant : Int
  fracDigits : Nat
  deriving Repr, DecidableEq

instance (n : Nat) : OfNat JSNum n := ⟨⟨Int.ofNat n, 0⟩⟩

/-- `Math.floor` on a finite JS number (floor division). -/
def JSNum.floor (v : JSNum) : Int :=
  v.mant.fdiv ((10 : Int) ^ v.fracDigits)

/-- The digits of `m` with a decimal point placed `f` digits from the
end (zero-padded when needed). -/
def renderDecimal (m f : Nat) : String :=
  let ds := (Nat.repr m).data
  let ds := List.replicate (f + 1 - ds.length) '0' ++ ds
  String.mk (ds.take (ds.length - f)) ++ "." ++ String.mk (ds.drop (ds.length - f))

/-- JS number-to-string interpolation (`${n}`): integers print exactly
as in JS; for fractional values JS prints the shortest double
round-trip while this keeps the parsed digit count (identical on every
value a claim exercises — all integers). -/
def JSNum.render (v : JSNum) : String :=
  if v.fracDigits = 0 then toString v.mant
  else (if v.mant < 0 then "-" else "") ++ renderDecimal v.mant.natAbs v.fracDigits

/-- `Expr` from `interpreter.ts`:
`{ kind: "number"; value } | { kind: "var"; name }`. -/
inductive Expr where
  | num (value : JSNum)
  | var (name : String)
  deriving Repr, DecidableEq

/-- `MOVE` direction word (`"FORWARD" | "BACKWARD" | "LEFT" | "RIGHT"`). -/
inductive MDir where
  | forward | backward | left | right
  deriving Repr, DecidableEq

/-- `TURN` side (`"LEFT" | "RIGHT"`). -/
inductive TDir where
  | left | right
  deriving Repr, DecidableEq

/-- The direction word rendered as in the source messages. -/
def MDir.word : MDir → String
  | .forward => "FORWARD"
  | .backward => "BACKWARD"
  | .left => "LEFT"
  | .right => "RIGHT"

/-- `Stmt` from `interpreter.ts`.  `func` is the `"function"` kind. -/
inductive Stmt where
  | assign (name : String) (value : Expr)
  | move (amount : Expr) (dir : MDir)
  | turn (dir : TDir)
  | scan
  | attack
  | ifS (cond : Expr) (thenStmt : Stmt) (elseStmt : Option Stmt)
  | call (name : String)
  | noop
  | func (name : String) (body : List Stmt)
  deriving Repr

/-- A call-stack frame (`{ name, pc, body }`). -/
structure Frame where
  name : String
  pc : Nat
  body : List Stmt
  deriving Repr

/-- `Program` from `interpreter.ts`; `functions` is the JS record embedded
as an association list (assignment replaces an existing key). -/
structure Program where
  stmts : List Stmt
  functions : List (String × List Stmt)
  deriving Repr

/-- First-match lookup in an association list (JS property read). -/
def lookupVar : List (String × JSNum) → String → Option JSNum
  | [], _ => none
  | (k, v) :: rest, n => if k = n then some v else lookupVar rest n

/-- JS property write: replace the binding if present, else append. -/
def setVar : List (String × JSNum) → String → JSNum → List (String × JSNum)
  | [], n, v => [(n, v)]
  | (k, x) :: rest, n, v =>
      if k = n then (n, v) :: rest else (k, x) :: setVar rest n v

/-- Lookup in the function table. -/
def lookupFun : List (String × List Stmt) → String → Option (List Stmt)
  | [], _ => none
  | (k, v) :: rest, n => if k = n then some v else lookupFun rest n

/-- JS `functions[name] = body`. -/
def setFun : List (String × List Stmt) → String → List Stmt → List (String × List Stmt)
  | [], n, v => [(n, v)]
  | (k, x) :: rest, n, v =>
      if k = n then (n, v) :: rest else (k, x) :: setFun rest n v

/-- `Runtime` from `interpreter.ts`. -/
structure Runtime where
  pc : Nat
  stack : List Frame
  vars : List (String × JSNum)
  enemySeen : JSNum
  deriving Repr

/-- `makeRuntime`. -/
def makeRuntime : Runtime := { pc := 0, stack := [], vars := [], enemySeen := 0 }

/-- `getVal`: a number evaluates to itself, a variable to its binding,
defaulting to 0 (`rt.vars[expr.name] ?? 0`). -/
def getVal (expr : Expr) (rt : Runtime) : JSNum :=
  match expr with
  | .num v => v
  | .var n => (lookupVar rt.vars n).getD 0

/-- The unit vector a `MOVE` word denotes relative to the facing `dir`
(the `switch` at the top of `tankMove`). -/
def moveDelta (dir : Nat) : MDir → Int × Int
  | .forward => DIRS dir
  | .backward => ((DIRS dir).1 * (-1), (DIRS dir).2 * (-1))
  | .left => DIRS ((dir + 3) % 4)
  | .right => DIRS ((dir + 1) % 4)

/-- One iteration of the `tankMove` loop: apply `(dx, dy)` and clamp both
coordinates into `[0, GRID-1]`. -/
def moveOnce (dx dy : Int) (t : Tank) : Tank :=
  { t with x := clamp (t.x + dx) 0 (GRID - 1), y := clamp (t.y + dy) 0 (GRID - 1) }

/-- `tankMove`: apply the unit vector `amount` times, clamping each step. -/
def tankMove (w : World) (dirWord : MDir) (amount : Nat) : World :=
  let d := moveDelta w.player.dir dirWord
  { w with player := (moveOnce d.1 d.2)^[amount] w.player }

/-- `tankTurn`: rotate the player's facing by +1 (RIGHT) or +3 (LEFT) mod 4. -/
def tankTurn (w : World) (side : TDir) : World :=
  { w with player :=
      { w.player with dir := (w.player.dir + (if side = .right then 1 else 3)) % 4 } }

/-- Result record of `lineOfSight`. -/
structure LOS where
  seen : Bool
  distance : Int
  dirOk : Bool
  deriving Repr, DecidableEq

/-- `lineOfSight` from `interpreter.ts`: the same-column branch is tried
first, then the same-row branch, else the `999` sentinel. -/
def lineOfSight (a b : Tank) : LOS :=
  if a.x = b.x then
    let dy := Int.sign (b.y - a.y)
    let dist := |b.y - a.y|
    let facing := decide ((dy < 0 ∧ a.dir = 0) ∨ (dy > 0 ∧ a.dir = 2))
    ⟨decide (0 < dist), dist, facing⟩
  else if a.y = b.y then
    let dx := Int.sign (b.x - a.x)
    let dist := |b.x - a.x|
    let facing := decide ((dx > 0 ∧ a.dir = 1) ∨ (dx < 0 ∧ a.dir = 3))
    ⟨decide (0 < dist), dist, facing⟩
  else ⟨false, 999, false⟩

/-- `tankScan`: store the sighting flag in `rt.enemySeen` and `$ENEMY`,
set the status message. -/
def tankScan (w : World) (rt : Runtime) : World × Runtime :=
  let los := lineOfSight w.player w.enemy
  let es : JSNum := if los.seen then 1 else 0
  let rt := { rt with enemySeen := es, vars := setVar rt.vars "ENEMY" es }
  let w := { w with message :=
      if los.seen then "Enemy spotted at " ++ toString los.distance ++ " tiles."
      else "No enemy in sight." }
  (w, rt)

/-- `tankAttack`: hit iff seen, facing correctly and within 3 tiles;
a hit takes 40 HP clamped at 0. -/
def tankAttack (w : World) : World :=
  let los := lineOfSight w.player w.enemy
  if los.seen && los.dirOk && decide (los.distance ≤ 3) then
    { w with enemy := { w.enemy with hp := max 0 (w.enemy.hp - 40) }
             message := "ATTACK hit! Enemy -40 HP" }
  else { w with message := "ATTACK missed." }

/-- Result of one `stepProgram` call. -/
structure StepResult where
  world : World
  rt : Runtime
  did : Bool
  deriving Repr

/-- The `advance` closure of `stepProgram`: `frame ? frame.pc++ : rt.pc++`.
In `stepProgram` it is always applied before any frame push, which matches
the source where the closure mutates the frame object that was active when
the statement was fetched. -/
def advanceRT (rt : Runtime) : Runtime :=
  match rt.stack with
  | [] => { rt with pc := rt.pc + 1 }
  | f :: rest => { rt with stack := { f with pc := f.pc + 1 } :: rest }

/-- The statement dispatch (`switch (stmt.kind)`) of `stepProgram`. -/
def execStmt (prog : Program) (w : World) (rt : Runtime) : Stmt → StepResult
  | .assign name value =>
      let v := getVal value rt
      let rt := advanceRT { rt with vars := setVar rt.vars name v }
      ⟨{ w with message := "$" ++ name ++ " = " ++ v.render }, rt, true⟩
  | .move amount dir =>
      let amt := max 0 (getVal amount rt).floor
      let w := tankMove w dir amt.toNat
      ⟨{ w with message := "MOVE " ++ toString amt ++ " " ++ dir.word }, advanceRT rt, true⟩
  | .turn dir =>
      let w := tankTurn w dir
      ⟨{ w with message := "TURN " ++ (match dir with | .left => "LEFT" | .right => "RIGHT") },
        advanceRT rt, true⟩
  | .scan =>
      let (w, rt) := tankScan w rt
      ⟨w, advanceRT rt, true⟩
  | .attack => ⟨tankAttack w, advanceRT rt, true⟩
  | .ifS cond thenStmt elseStmt =>
      let c := getVal cond rt
      let chosen := if c ≠ 0 then some thenStmt else elseStmt
      match chosen with
      | some s => ⟨w, { rt with stack := ⟨"<if>", 0, [s]⟩ :: rt.stack }, true⟩
      | none => ⟨{ w with message := "IF (" ++ c.render ++ ") no-op" }, advanceRT rt, true⟩
  | .call name =>
      let rt1 := advanceRT rt
      let rt2 :=
        match lookupFun prog.functions name with
        | some body => { rt1 with stack := ⟨name, 0, body⟩ :: rt1.stack }
        | none => rt1
      ⟨{ w with message := "CALL " ++ name }, rt2, true⟩
  | .noop => ⟨w, advanceRT rt, true⟩
  | .func _ _ => ⟨w, advanceRT rt, true⟩

/-- `stepProgram`: execute one statement of the active frame (top of the
call stack, else the top level).  A program counter past the end of the
active list pops the frame (returning `true`) or, at top level, reports
`false` without touching anything. -/
def stepProgram (prog : Program) (w : World) (rt : Runtime) : StepResult :=
  match rt.stack with
  | [] =>
      match prog.stmts[rt.pc]? with
      | some stmt => execStmt prog w rt stmt
      | none => ⟨w, rt, false⟩
  | f :: rest =>
      match f.body[f.pc]? with
      | some stmt => execStmt prog w rt stmt
      | none => ⟨w, { rt with stack := rest }, true⟩

/-- Iterate `stepProgram` (the driver's repeated `step` calls), keeping
world and runtime. -/
def runSteps (prog : Program) : Nat → World × Runtime → World × Runtime
  | 0, st => st
  | n + 1, st =>
      let r := stepProgram prog st.1 st.2
      runSteps prog n (r.world, r.rt)

/-- The statement `stepProgram` would execute next, if any. -/
def activeStmt (prog : Program) (rt : Runtime) : Option Stmt :=
  match rt.stack with
  | [] => prog.stmts[rt.pc]?
  | f :: _ => f.body[f.pc]?

/-- The firing condition of the enemy AI (`los.seen && los.distance <= 3
&& los.dirOk` with `los = lineOfSight enemy player`). -/
def enemyFires (w : World) : Bool :=
  let los := lineOfSight w.enemy w.player
  los.seen && decide (los.distance ≤ 3) && los.dirOk

/-- `enemyStep` from `enemy.ts`: dead enemies are inert; in range and
facing, the enemy fires for 15 HP and appends to the message; otherwise it
reorients (`pref` compares `|Math.sign dx|` with `|Math.sign dy|`) and
moves one clamped cell. -/
def enemyStep (w : World) : World :=
  if w.enemy.hp ≤ 0 then w
  else if enemyFires w then
    { w with player := { w.player with hp := max 0 (w.player.hp - 15) }
             message := w.message ++ " | Enemy fires (-15 HP)" }
  else
    let dx := Int.sign (w.player.x - w.enemy.x)
    let dy := Int.sign (w.player.y - w.enemy.y)
    let pref : Nat :=
      if |dx| > |dy| then (if dx > 0 then 1 else 3) else (if dy > 0 then 2 else 0)
    let d := DIRS pref
    { w with enemy :=
        { w.enemy with
          dir := pref
          x := clamp (w.enemy.x + d.1) 0 (GRID - 1)
          y := clamp (w.enemy.y + d.2) 0 (GRID - 1) } }

/-! ## Lexer (`stripComments`, `tokenize`)

The lexer works on JS strings; we embed a line as a `List Char`.  The JS
`\s` and `\w` classes are modelled on the ASCII range (the only range the
Omega grammar and every claim exercise). -/

/-- JS `\s` (ASCII range): space, tab, newline, carriage return, vertical
tab, form feed. -/
def isWS (c : Char) : Bool :=
  c = ' ' || c = '\t' || c = '\n' || c = '\r' || c = '\x0b' || c = '\x0c'

/-- JS `\w` = `[A-Za-z0-9_]`. -/
def isWordChar (c : Char) : Bool :=
  c.isAlphanum || c = '_'

/-- First character of an identifier: `[A-Za-z_]`. -/
def isIdentStart (c : Char) : Bool :=
  c.isAlpha || c = '_'

/-- `String.prototype.trim` on a line. -/
def trimChars (l : List Char) : List Char :=
  ((l.dropWhile isWS).reverse.dropWhile isWS).reverse

/-- `split(sep)` on a separator character (keeps empty pieces, as JS does). -/
def splitOnChar (sep : Char) : List Char → List (List Char)
  | [] => [[]]
  | c :: rest =>
      let r := splitOnChar sep rest
      if c = sep then [] :: r
      else
        match r with
        | [] => [[c]]
        | p :: ps => (c :: p) :: ps

/-- `line.replace(/\/\/.*$/, "")`: cut the line at the first `//`. -/
def stripComment : List Char → List Char
  | '/' :: '/' :: _ => []
  | c :: rest => c :: stripComment rest
  | [] => []

/-- The line list `tokenize` scans: `stripComments` splits on newlines and
strips each line, then `tokenize` splits the rejoined text on `/\n+/`,
trims and drops blanks.  Splitting on single newlines and filtering after
the trim yields the same list, because `stripComment` introduces no
newline and every extra empty piece of the single-newline split is blank. -/
def omegaLines (code : List Char) : List (List Char) :=
  (((splitOnChar '\n' code).map stripComment).map trimChars).filter (fun l => l ≠ [])

/-- Case-insensitive prefix test (`/^PAT/i` with `PAT` given uppercase). -/
def startsWithCI (pat l : List Char) : Bool :=
  decide ((l.take pat.length).map Char.toUpper = pat)

/-- `/^FUNCTION\s+/i.test(line)`. -/
def isFunctionHeader (l : List Char) : Bool :=
  startsWithCI "FUNCTION".data l &&
    (match l.drop 8 with
     | c :: _ => isWS c
     | [] => false)

/-- `/^END\b/i.test(line)`: the word boundary after `END` holds at end of
string or before a non-word character. -/
def isEndLine (l : List Char) : Bool :=
  startsWithCI "END".data l &&
    (match l.drop 3 with
     | [] => true
     | c :: _ => !isWordChar c)

/-- Splitting a regular line on `;`, trimming, dropping blanks and
re-suffixing each part with `;`. -/
def splitSemis (l : List Char) : List (List Char) :=
  (((splitOnChar ';' l).map trimChars).filter (fun p => p ≠ [])).map (fun p => p ++ [';'])

/-- The remaining lines after a function block: drop the body lines (the
ones before the first `END` line) and consume the `END` line itself when
one exists (`if (i < lines.length && /^END\\b/i.test(lines[i])) i++`). -/
def afterBlock (rest : List (List Char)) : List (List Char) :=
  match rest.dropWhile (fun l => !isEndLine l) with
  | [] => []
  | l :: tl => if isEndLine l then tl else l :: tl

/-- The scanning `while` loop of `tokenize` over the prepared lines: a
`FUNCTION` header swallows every line up to the first `END` line (plus
that line) into one newline-joined token ending in a literal `END`; any
other line contributes its semicolon-split parts.  The `fuel` argument
makes the recursion structural (the JS loop needs none); every iteration
consumes at least one line, so any `fuel` at or above the number of lines
gives the loop's value. -/
def tokLoopF : Nat → List (List Char) → List (List Char)
  | _, [] => []
  | 0, _ :: _ => []
  | fuel + 1, line :: rest =>
      if isFunctionHeader line then
        let body := rest.takeWhile (fun l => !isEndLine l)
        List.intercalate ['\n'] (line :: (body ++ ["END".data])) :: tokLoopF fuel (afterBlock rest)
      else
        splitSemis line ++ tokLoopF fuel rest

/-- `tokenize` from `interpreter.ts`. -/
def tokenize (code : List Char) : List (List Char) :=
  tokLoopF (omegaLines code).length (omegaLines code)

/-- The suffixes of the prepared line list at which the tokenizer's
scanning loop arrives (`lines.slice(i)` for the successive values of the
loop index): the whole list; past a plain statement line; and past a
whole function block from its header.  Per §4.1's block definition, a
`FUNCTION` header inside another block's body is part of that block, not
a block of its own, and is accordingly not a reached suffix head. -/
inductive TokReaches (lines : List (List Char)) : List (List Char) → Prop where
  | start : TokReaches lines lines
  | plain {line : List Char} {rest : List (List Char)} :
      TokReaches lines (line :: rest) → isFunctionHeader line = false →
      TokReaches lines rest
  | block {line : List Char} {rest : List (List Char)} :
      TokReaches lines (line :: rest) → isFunctionHeader line = true →
      TokReaches lines (afterBlock rest)

/-! ## Expression parsing (`parseExpr`) -/

/-- Value of a nonempty all-digit string. -/
def digitsToNat (l : List Char) : Option Nat :=
  if l ≠ [] ∧ l.all Char.isDigit then
    some (l.foldl (fun a c => a * 10 + (c.toNat - '0'.toNat)) 0)
  else none

/-- Fold decimal digits; an empty list folds to 0. -/
def digitsAsNat (l : List Char) : Nat :=
  l.foldl (fun a c => a * 10 + (c.toNat - '0'.toNat)) 0

/-- Hexadecimal digit value (`[0-9a-fA-F]`). -/
def hexDigitVal (c : Char) : Option Nat :=
  if '0' ≤ c ∧ c ≤ '9' then some (c.toNat - '0'.toNat)
  else if 'a' ≤ c ∧ c ≤ 'f' then some (c.toNat - 'a'.toNat + 10)
  else if 'A' ≤ c ∧ c ≤ 'F' then some (c.toNat - 'A'.toNat + 10)
  else none

/-- Octal digit value (`[0-7]`). -/
def octDigitVal (c : Char) : Option Nat :=
  if '0' ≤ c ∧ c ≤ '7' then some (c.toNat - '0'.toNat) else none

/-- Binary digit value (`[01]`). -/
def binDigitVal (c : Char) : Option Nat :=
  if c = '0' then some 0 else if c = '1' then some 1 else none

/-- Value of a nonempty digit string in a radix. -/
def radixVal (radix : Nat) (digit : Char → Option Nat) : List Char → Option Nat
  | [] => none
  | l =>
      l.foldl
        (fun acc c => do
          let a ← acc
          let d ← digit c
          some (a * radix + d))
        (some 0)

/-- The optional exponent part `[eE] [+-]? digits` of a decimal literal
(an empty remainder means exponent 0); any other remainder fails the
grammar. -/
def parseExpPart : List Char → Option Int
  | [] => some 0
  | c :: rest =>
      if c = 'e' ∨ c = 'E' then
        match rest with
        | '+' :: ds => (digitsToNat ds).map Int.ofNat
        | '-' :: ds => (digitsToNat ds).map (fun n => -(Int.ofNat n : Int))
        | ds => (digitsToNat ds).map Int.ofNat
      else none

/-- Assemble a decimal literal's exact value from the concatenated
mantissa digits, the fraction length and the exponent: zero is
normalized to `⟨0, 0⟩` and a nonnegative net exponent is folded into the
mantissa. -/
def assembleDec (m : Nat) (fracLen : Nat) (e : Int) : JSNum :=
  if m = 0 then ⟨0, 0⟩
  else
    let net := e - (fracLen : Int)
    if 0 ≤ net then ⟨(m : Int) * 10 ^ net.toNat, 0⟩ else ⟨(m : Int), (-net).toNat⟩

/-- The finite unsigned decimal literal forms of the `Number` grammar:
`digits [. digits?] [exp]` and `. digits [exp]`. -/
def decFinite (l : List Char) : Option JSNum :=
  let ip := l.takeWhile Char.isDigit
  let r := l.drop ip.length
  match r with
  | '.' :: r2 =>
      let fp := r2.takeWhile Char.isDigit
      let r3 := r2.drop fp.length
      if ip = [] ∧ fp = [] then none
      else (parseExpPart r3).map fun e => assembleDec (digitsAsNat (ip ++ fp)) fp.length e
  | _ =>
      if ip = [] then none
      else (parseExpPart r).map fun e => assembleDec (digitsAsNat ip) 0 e

/-- The `Infinity` forms: legal numeric literals whose value is not
finite, hence outside the `JSNum` embedding. -/
def isInfinityForm (v : List Char) : Bool :=
  decide (v = "Infinity".data) || decide (v = "+Infinity".data) ||
    decide (v = "-Infinity".data)

/-- An optionally signed finite decimal literal. -/
def decSigned (l : List Char) : Option JSNum :=
  match l with
  | '+' :: r => decFinite r
  | '-' :: r => (decFinite r).map fun j => ⟨-j.mant, j.fracDigits⟩
  | _ => decFinite l

/-- JS `Number(v)` for an already-trimmed `v`: the empty string is 0;
`0x`/`0o`/`0b` prefixes give unsigned non-decimal integers; otherwise an
optionally signed decimal literal with optional fraction and exponent,
carried exactly (see `JSNum`).  `none` is NaN.  The NaN / non-NaN
classification follows the `StringNumericLiteral` grammar exactly, with
one documented exception: the non-finite `Infinity` forms have no
`JSNum` value and are mapped to `none` as well, so at such a token (which
no Omega construct or claim produces) the fallback 0 this induces in
`parseExpr` diverges from the source's `Infinity` value. -/
def jsNumber (v : List Char) : Option JSNum :=
  match v with
  | [] => some 0
  | '0' :: c :: rest =>
      if c = 'x' ∨ c = 'X' then (radixVal 16 hexDigitVal rest).map fun n => ⟨(n : Int), 0⟩
      else if c = 'o' ∨ c = 'O' then (radixVal 8 octDigitVal rest).map fun n => ⟨(n : Int), 0⟩
      else if c = 'b' ∨ c = 'B' then (radixVal 2 binDigitVal rest).map fun n => ⟨(n : Int), 0⟩
      else if isInfinityForm v then none else decSigned v
  | _ => if isInfinityForm v then none else decSigned v

/-- `/^\$[A-Za-z_][A-Za-z0-9_]*$/.test(v)`. -/
def isDollarIdent : List Char → Bool
  | '$' :: c :: rest => isIdentStart c && rest.all isWordChar
  | _ => false

/-- `parseExpr` from `interpreter.ts`: trim; a `$identifier` is a variable
reference; otherwise `Number` parse with fallback literal 0. -/
def parseExpr (tok : List Char) : Expr :=
  let v := trimChars tok
  if isDollarIdent v then Expr.var (String.mk (v.drop 1))
  else Expr.num ((jsNumber v).getD 0)

/-! ## Statement parsing (`parseStmt`)

Each regex rule of `parseStmt` is embedded as a function computing the
same match (or failure) as the JS regex engine; the backtracking of each
pattern was resolved by hand and is documented per rule. -/

/-- Maximal identifier at the start: `([A-Za-z_][A-Za-z0-9_]*)` (greedy),
returning the identifier and the remainder. -/
def identSpan (l : List Char) : Option (List Char × List Char) :=
  match l with
  | c :: _ =>
      if isIdentStart c then some (l.takeWhile isWordChar, l.dropWhile isWordChar)
      else none
  | [] => none

/-- Case-insensitive whole-token test against `PAT` or `PAT;`
(`/^PAT;?$/i`). -/
def eqCIOptSemi (pat l : List Char) : Bool :=
  decide (l.map Char.toUpper = pat) || decide (l.map Char.toUpper = pat ++ [';'])

/-- Characters the JS regex `.` does not match (ASCII range): line feed
and carriage return (the Unicode line separators are outside this ASCII
model). -/
def isDotExcluded (c : Char) : Bool := c = '\n' || c = '\r'

/-- Whether a `(.+)`/`(.+?)` group can capture this text: none of its
characters may be one `.` refuses. -/
def dotCompatible (l : List Char) : Bool := l.all fun c => !isDotExcluded c

/-- `/^([A-Za-z_][A-Za-z0-9_]*)\s*=\s*(.+);?$/`.  The greedy `(.+)` always
reaches the end of the token (the trailing `;?` then matches empty), so
the captured value text is the remainder after `=`, which `parseExpr`
trims; the rule fails when nothing follows the `=`.  Because `.` does not
match line terminators, the rule also fails when any character of the
capture is one (every candidate capture contains the text after the
whitespace run, and must include the final character); when that text is
all whitespace the backtracked capture is the final whitespace character
alone. -/
def ruleAssign (t : List Char) : Option Stmt :=
  match identSpan t with
  | none => none
  | some (name, r0) =>
      match r0.dropWhile isWS with
      | '=' :: r =>
          if r = [] then none
          else
            let r1 := r.dropWhile isWS
            if r1 = [] then
              match r.getLast? with
              | some c =>
                  if isDotExcluded c then none
                  else some (Stmt.assign (String.mk name) (parseExpr [c]))
              | none => none
            else
              if dotCompatible r1 then
                some (Stmt.assign (String.mk name) (parseExpr r1))
              else none
      | _ => none

/-- Which `MOVE` direction word is a case-insensitive suffix of `s` (the
four words are pairwise non-suffixes, so at most one matches, and the
greedy `(.+)\s+` forces the match at the end). -/
def mdirSuffix (s : List Char) : Option (MDir × List Char) :=
  let u := s.map Char.toUpper
  if u.drop (u.length - 7) = "FORWARD".data then some (MDir.forward, s.take (s.length - 7))
  else if u.drop (u.length - 8) = "BACKWARD".data then some (MDir.backward, s.take (s.length - 8))
  else if u.drop (u.length - 4) = "LEFT".data then some (MDir.left, s.take (s.length - 4))
  else if u.drop (u.length - 5) = "RIGHT".data then some (MDir.right, s.take (s.length - 5))
  else none

/-- `/^MOVE\s+(.+)\s+(FORWARD|BACKWARD|LEFT|RIGHT);?$/i`.  The match
exists iff, after stripping an optional final `;` and the direction-word
suffix, the middle text starts and ends with whitespace and has at least
one character between (`\s+ (.+) \s+`); the captured amount always trims
to the trim of that middle text.  Because `.` does not match line
terminators, the middle core (every capture contains it) must be free of
them; when the middle is all whitespace, some strictly interior character
must be one `.` accepts. -/
def ruleMove (t : List Char) : Option Stmt :=
  if startsWithCI "MOVE".data t then
    let s := t.drop 4
    let s1 := if s.getLast? = some ';' then s.dropLast else s
    match mdirSuffix s1 with
    | some (dir, head) =>
        match head.head?, head.getLast? with
        | some a, some b =>
            if isWS a && isWS b then
              let core := trimChars head
              if core = [] then
                if decide (3 ≤ head.length) &&
                    ((head.drop 1).take (head.length - 2)).any (fun c => !isDotExcluded c) then
                  some (Stmt.move (parseExpr core) dir)
                else none
              else
                if dotCompatible core then some (Stmt.move (parseExpr core) dir)
                else none
            else none
        | _, _ => none
    | none => none
  else none

/-- `/^TURN\s+(LEFT|RIGHT);?$/i`. -/
def ruleTurn (t : List Char) : Option Stmt :=
  if startsWithCI "TURN".data t then
    let s := t.drop 4
    if (s.takeWhile isWS).length ≥ 1 then
      let r := s.dropWhile isWS
      if eqCIOptSemi "LEFT".data r then some (Stmt.turn TDir.left)
      else if eqCIOptSemi "RIGHT".data r then some (Stmt.turn TDir.right)
      else none
    else none
  else none

/-- `/^CALL\s+([A-Za-z_][A-Za-z0-9_]*);?$/i`. -/
def ruleCall (t : List Char) : Option Stmt :=
  if startsWithCI "CALL".data t then
    let s := t.drop 4
    if (s.takeWhile isWS).length ≥ 1 then
      match identSpan (s.dropWhile isWS) with
      | some (name, rest) =>
          if rest = [] ∨ rest = [';'] then some (Stmt.call (String.mk name)) else none
      | none => none
    else none
  else none

/-- The `ELSE` half of the IF pattern, `(?:\s+ELSE\s+(.+))?`, tried at a
given remainder: it matches when at least one whitespace character,
`ELSE`, at least one whitespace character and at least one further
character follow.  The captured group is returned already trimmed (the
code only uses `m[3]?.trim()`); when the text after `ELSE` is all
whitespace the backtracked capture is a single whitespace character,
which trims to the empty string.  Every candidate capture contains the
text after the whitespace run and the final character, so `.`'s refusal
of line terminators is checked there. -/
def elseCheck (rest : List Char) : Option (List Char) :=
  if (rest.takeWhile isWS).length ≥ 1 then
    let r3 := rest.dropWhile isWS
    if startsWithCI "ELSE".data r3 then
      let r4 := r3.drop 4
      let after := r4.dropWhile isWS
      if after = [] then
        if (r4.takeWhile isWS).length ≥ 2 then
          match r4.getLast? with
          | some c => if isDotExcluded c then none else some (trimChars [c])
          | none => none
        else none
      else
        if (r4.takeWhile isWS).length ≥ 1 ∧ dotCompatible after then some (trimChars r4)
        else none
    else none
  else none

/-- Scan of the lazy `(.+?)(?:\s+ELSE\s+(.+))?;?$` tail of the IF
pattern, for one fixed amount of whitespace consumed after `THEN`: the
then-part grows one character at a time, and at each length the engine
first tries the `ELSE` group and then the end of string (an optional
final `;`). -/
def thenScan (s2 : List Char) : Option (List Char × Option (List Char)) :=
  (List.range s2.length).findSome? fun p0 =>
    let p := p0 + 1
    let th := s2.take p
    if dotCompatible th then
      let rest := s2.drop p
      match elseCheck rest with
      | some m3 => some (th, some m3)
      | none => if rest = [] ∨ rest = [';'] then some (th, none) else none
    else none

/-- The `\s+` after `THEN` is greedy: the engine first consumes the whole
whitespace run and shortens it only when no then-part parse exists (which
lets the then-part itself start with whitespace). -/
def thenBlock (r : List Char) : Option (List Char × Option (List Char)) :=
  let w1 := (r.takeWhile isWS).length
  if w1 ≥ 1 then
    let r1 := r.drop w1
    if startsWithCI "THEN".data r1 then
      let r2 := r1.drop 4
      let w2max := (r2.takeWhile isWS).length
      (List.range w2max).findSome? fun k => thenScan (r2.drop (w2max - k))
    else none
  else none

/-- Scan of the lazy `(.+?)\s+THEN…` condition: the condition grows one
character at a time; after it, the whitespace before `THEN` is a maximal
run (shrinking it would put a whitespace character where `THEN` must
start). -/
def condScan (s : List Char) : Option (List Char × List Char × Option (List Char)) :=
  (List.range s.length).findSome? fun c0 =>
    let condLen := c0 + 1
    let c := s.take condLen
    if dotCompatible c then
      let r := s.drop condLen
      (thenBlock r).map fun (th, el) => (c, th, el)
    else none

/-- `/^IF\s+(.+?)\s+THEN\s+(.+?)(?:\s+ELSE\s+(.+))?;?$/i`.  The leading
`\s+` is greedy: the full whitespace run after `IF` is consumed first,
shrinking only if no parse exists (which lets the condition start with
whitespace).  A `null` then-statement (never produced for nonempty text)
makes the rule fall through, as in the source. -/
def ruleIf (parse : List Char → Option Stmt) (t : List Char) : Option Stmt :=
  if startsWithCI "IF".data t then
    let u := t.drop 2
    let maxWs := (u.takeWhile isWS).length
    if maxWs ≥ 1 then
      let result := (List.range maxWs).findSome? fun k => condScan (u.drop (maxWs - k))
      match result with
      | none => none
      | some (c, th, el) =>
          let cond := parseExpr c
          let thenText := trimChars th
          let thenTok := thenText ++ (if thenText.getLast? = some ';' then [] else [';'])
          match parse thenTok with
          | none => none
          | some thenStmt =>
              let elseStmt :=
                match el with
                | none => none
                | some raw =>
                    if raw = [] then none
                    else parse (raw ++ (if raw.getLast? = some ';' then [] else [';']))
              some (Stmt.ifS cond thenStmt elseStmt)
    else none
  else none

/-- `/^FUNCTION\s+([A-Za-z_][A-Za-z0-9_]*)\s*:\s*\n([\s\S]*?)\nEND$/i`.
After the colon, the greedy `\s*\n` puts the literal newline at the last
newline of the whitespace run that still leaves four characters for the
anchored `\nEND` tail; the lazy body capture is then forced by the
anchor.  The body is re-tokenized and each token parsed, dropping
`null`s. -/
def ruleFunction (parse : List Char → Option Stmt) (t : List Char) : Option Stmt :=
  if isFunctionHeader t then
    let s := t.drop 8
    let r := s.dropWhile isWS
    match identSpan r with
    | none => none
    | some (name, r2) =>
        match r2.dropWhile isWS with
        | ':' :: r4 =>
            if 4 ≤ r4.length then
              let tail := r4.drop (r4.length - 4)
              if tail.map Char.toUpper = '\n' :: "END".data then
                let run := r4.takeWhile isWS
                let pre := r4.take (min run.length (r4.length - 4))
                match pre.reverse.findIdx? (fun c => c = '\n') with
                | none => none
                | some j =>
                    let k := pre.length - 1 - j
                    let bodyRaw := (r4.drop (k + 1)).take (r4.length - (k + 1) - 4)
                    let body := (tokenize bodyRaw).filterMap parse
                    some (Stmt.func (String.mk name) body)
              else none
            else none
        | _ => none
  else none

/-- `/^SCAN_FOR_ENEMY;?$/i` and `/^ATTACK;?$/i` (two adjacent one-line
rules in the source). -/
def ruleScanAttack (t : List Char) : Option Stmt :=
  if eqCIOptSemi "SCAN_FOR_ENEMY".data t then some Stmt.scan
  else if eqCIOptSemi "ATTACK".data t then some Stmt.attack
  else none

/-- `parseStmt` from `interpreter.ts`: trim, `null` for a blank token,
then the ordered rules FUNCTION, IF, assignment, MOVE, TURN, SCAN,
ATTACK, CALL, with every unmatched token becoming a no-op.  The `fuel`
argument bounds the nesting depth of the recursion through IF branches
and FUNCTION bodies (the JS recursion has no such argument; every use
below instantiates `fuel` larger than the token length, which the
recursion on strictly shorter texts never exhausts). -/
def parseStmt : Nat → List Char → Option Stmt
  | fuel, tok =>
      let t := trimChars tok
      if t = [] then none
      else
        match fuel with
        | 0 => none
        | fuel + 1 =>
            match ruleFunction (parseStmt fuel) t with
            | some s => some s
            | none =>
            match ruleIf (parseStmt fuel) t with
            | some s => some s
            | none =>
            match ruleAssign t with
            | some s => some s
            | none =>
            match ruleMove t with
            | some s => some s
            | none =>
            match ruleTurn t with
            | some s => some s
            | none =>
            match ruleScanAttack t with
            | some s => some s
            | none =>
            match ruleCall t with
            | some s => some s
            | none => some Stmt.noop

/-- `parseProgram` from `interpreter.ts` at a given recursion budget:
parse every token; `function` statements go to the table (a later
declaration overwrites an earlier one of the same name), everything else
is appended to the top-level sequence. -/
def parseProgramF (fuel : Nat) (code : List Char) : Program :=
  (tokenize code).foldl
    (fun acc tok =>
      match parseStmt fuel tok with
      | none => acc
      | some (Stmt.func name body) => { acc with functions := setFun acc.functions name body }
      | some s => { acc with stmts := acc.stmts ++ [s] })
    ⟨[], []⟩

/-- `parseProgram`, with a recursion budget that the input length can
never exhaust. -/
def parseProgram (code : String) : Program :=
  parseProgramF (code.length + 1) code.data

/-! ## Definitions used by the claim statements -/

/-- The per-tank part of the §3 invariant: coordinates on the grid,
health in `[0, 100]`, facing one of the four directions. -/
def TankInv (t : Tank) : Prop :=
  0 ≤ t.x ∧ t.x < GRID ∧ 0 ≤ t.y ∧ t.y < GRID ∧ 0 ≤ t.hp ∧ t.hp ≤ 100 ∧ t.dir < 4

instance (t : Tank) : Decidable (TankInv t) := by unfold TankInv; infer_instance

/-- The §3 world invariant for both tanks. -/
def WorldInv (w : World) : Prop := TankInv w.player ∧ TankInv w.enemy

instance (w : World) : Decidable (WorldInv w) := by unfold WorldInv; infer_instance

/-- Worlds reachable from the initial world by any interleaving of
`stepProgram` (with any program and runtime) and `enemyStep`. -/
inductive Reach : World → Prop where
  | init : Reach makeInitialWorld
  | stepP {w : World} (prog : Program) (rt : Runtime) :
      Reach w → Reach (stepProgram prog w rt).world
  | stepE {w : World} : Reach w → Reach (enemyStep w)

/-- Statement kinds that never push a call frame when executed: every
kind except `if` (which pushes when a branch is chosen) and `call`
(which pushes when the callee exists). -/
def simpleKind : Stmt → Bool
  | .assign _ _ => true
  | .move _ _ => true
  | .turn _ => true
  | .scan => true
  | .attack => true
  | .ifS _ _ _ => false
  | .call _ => false
  | .noop => true
  | .func _ _ => true

/-- The three-line scenario source of §8 (claim C2). -/
def c2src : String :=
  "MOVEMENT = 2;\nSCAN_FOR_ENEMY;\nIF $ENEMY THEN ATTACK ELSE MOVE $MOVEMENT FORWARD;"

/-- The scenario program. -/
def c2prog : Program := parseProgram c2src

/-- The world and runtime after `n` `stepProgram` calls of the scenario,
starting from the initial world and a fresh runtime. -/
def c2run (n : Nat) : World × Runtime :=
  runSteps c2prog n (makeInitialWorld, makeRuntime)

/-- Counterexample world for claim C1: the actor is 5 columns and 4 rows
away from the opponent, so the larger absolute offset is horizontal. -/
def c1world : World :=
  { player := { x := 5, y := 4, dir := 0, hp := 100 }
    enemy := { x := 0, y := 0, dir := 0, hp := 100 }
    tick := 0
    message := "" }

/-- Counterexample program for claim C3: `Patrol` has N = 1 statements,
but its single statement is a branch-selecting `IF`, which pushes a
second frame. -/
def c3prog : Program :=
  { stmts := [Stmt.call "Patrol", Stmt.noop]
    functions := [("Patrol", [Stmt.ifS (Expr.num 1) Stmt.attack none])] }

/-- States of the C3 counterexample run. -/
def c3run (n : Nat) : World × Runtime :=
  runSteps c3prog n (makeInitialWorld, makeRuntime)

/-- The facing `enemyStep` actually chooses when it does not fire
(amended claim C1): because the code compares `|Math.sign dx|` with
`|Math.sign dy|`, the horizontal axis wins only when the vertical offset
is zero and the horizontal offset is not; otherwise the vertical axis is
chosen (down when the actor is strictly below, else up, including the
same-cell case). -/
def enemyPref (w : World) : Nat :=
  if w.player.y = w.enemy.y ∧ w.player.x ≠ w.enemy.x then
    (if w.enemy.x < w.player.x then 1 else 3)
  else (if w.enemy.y < w.player.y then 2 else 0)

/-- The source of the C9 witness: a function block, containing a blank
line and a comment line, preceded by an ordinary statement and followed
by another. -/
def c9code : String :=
  "MOVE 1 FORWARD;\nFUNCTION f:\n\n// note\nTURN LEFT;\nEND\nATTACK;"

/-! ## Theorems -/

/-- `Int.sign a` is negative exactly when `a` is. -/
theorem sign_lt_zero_iff (a : Int) : Int.sign a < 0 ↔ a < 0 := by
  rcases lt_trichotomy a 0 with h | h | h
  · simp [Int.sign_eq_neg_one_of_neg h, h]
  · simp [h]
  · simp [Int.sign_eq_one_of_pos h, h]; omega

/-- `Int.sign a` is positive exactly when `a` is. -/
theorem sign_pos_iff (a : Int) : 0 < Int.sign a ↔ 0 < a := by
  rcases lt_trichotomy a 0 with h | h | h
  · simp [Int.sign_eq_neg_one_of_neg h, h]; omega
  · simp [h]
  · simp [Int.sign_eq_one_of_pos h, h]

/-- C4: `lineOfSight` reports `seen` iff the two tanks share exactly one
grid axis; the distance is the Manhattan offset along the shared axis and
`dirOk` holds iff the observer's facing points along that axis toward the
target; sharing neither axis yields `⟨false, 999, false⟩`; sharing both
axes (same cell) yields `seen = false`. -/
theorem C4_lineOfSight (a b : Tank) :
    ((lineOfSight a b).seen = true ↔
      ((a.x = b.x ∧ a.y ≠ b.y) ∨ (a.x ≠ b.x ∧ a.y = b.y))) ∧
    (a.x = b.x → a.y ≠ b.y →
      (lineOfSight a b).distance = |b.y - a.y| ∧
      ((lineOfSight a b).dirOk = true ↔
        ((b.y < a.y ∧ a.dir = 0) ∨ (a.y < b.y ∧ a.dir = 2)))) ∧
    (a.y = b.y → a.x ≠ b.x →
      (lineOfSight a b).distance = |b.x - a.x| ∧
      ((lineOfSight a b).dirOk = true ↔
        ((a.x < b.x ∧ a.dir = 1) ∨ (b.x < a.x ∧ a.dir = 3)))) ∧
    (a.x ≠ b.x → a.y ≠ b.y → lineOfSight a b = ⟨false, 999, false⟩) ∧
    (a.x = b.x → a.y = b.y → (lineOfSight a b).seen = false) := by
  refine ⟨?_, ?_, ?_, ?_, ?_⟩
  · by_cases hx : a.x = b.x
    · simp [lineOfSight, hx, abs_pos, sub_ne_zero]
      constructor
      · intro h; exact fun h2 => h (h2.symm)
      · intro h h2; exact h h2.symm
    · by_cases hy : a.y = b.y
      · simp [lineOfSight, hx, hy, abs_pos, sub_ne_zero]
        intro h; exact hx h.symm
      · simp [lineOfSight, hx, hy]
  · intro hx hy
    simp only [lineOfSight, hx, if_true]
    refine ⟨by trivial, ?_⟩
    simp only [decide_eq_true_eq, sign_lt_zero_iff, sign_pos_iff]
    constructor
    · rintro (⟨h1, h2⟩ | ⟨h1, h2⟩)
      · exact Or.inl ⟨by omega, h2⟩
      · exact Or.inr ⟨by omega, h2⟩
    · rintro (⟨h1, h2⟩ | ⟨h1, h2⟩)
      · exact Or.inl ⟨by omega, h2⟩
      · exact Or.inr ⟨by omega, h2⟩
  · intro hy hx
    have hx' : ¬(a.x = b.x) := hx
    simp only [lineOfSight, hx', if_false, hy, if_true]
    refine ⟨by trivial, ?_⟩
    simp only [decide_eq_true_eq, sign_lt_zero_iff, sign_pos_iff]
    constructor
    · rintro (⟨h1, h2⟩ | ⟨h1, h2⟩)
      · exact Or.inl ⟨by omega, h2⟩
      · exact Or.inr ⟨by omega, h2⟩
    · rintro (⟨h1, h2⟩ | ⟨h1, h2⟩)
      · exact Or.inl ⟨by omega, h2⟩
      · exact Or.inr ⟨by omega, h2⟩
  · intro hx hy
    simp [lineOfSight, hx, hy]
  · intro hx hy
    simp [lineOfSight, hx, hy]

/-- C4 witness: the theorem applied to two concrete tanks sharing one
axis at distance 2, facing correctly. -/
theorem C4_lineOfSight_witness :
    (lineOfSight ⟨2, 2, 1, 100⟩ ⟨4, 2, 0, 100⟩).seen = true ∧
    (lineOfSight ⟨2, 2, 1, 100⟩ ⟨4, 2, 0, 100⟩).distance = 2 ∧
    (lineOfSight ⟨2, 2, 1, 100⟩ ⟨4, 2, 0, 100⟩).dirOk = true := by
  have h := C4_lineOfSight ⟨2, 2, 1, 100⟩ ⟨4, 2, 0, 100⟩
  refine ⟨h.1.mpr (by decide), ?_, ?_⟩
  · have h2 := (h.2.2.1 (by decide) (by decide)).1
    simpa using h2
  · exact (h.2.2.1 (by decide) (by decide)).2.mpr (by decide)

/-- C5: `tankAttack` takes 40 HP (clamped at 0) from the opponent exactly
when the line of sight reports seen, facing correct and distance at most
3, leaves the health unchanged otherwise, and the §8 scenario (aligned at
distance 2, facing correctly, 100 HP) goes 100 → 60 → 20 → 0 with the hit
message. -/
theorem C5_tankAttack :
    (∀ w : World,
      ((lineOfSight w.player w.enemy).seen = true ∧
       (lineOfSight w.player w.enemy).dirOk = true ∧
       (lineOfSight w.player w.enemy).distance ≤ 3 →
        (tankAttack w).enemy.hp = max 0 (w.enemy.hp - 40) ∧
        (tankAttack w).message = "ATTACK hit! Enemy -40 HP") ∧
      (¬((lineOfSight w.player w.enemy).seen = true ∧
         (lineOfSight w.player w.enemy).dirOk = true ∧
         (lineOfSight w.player w.enemy).distance ≤ 3) →
        (tankAttack w).enemy.hp = w.enemy.hp)) ∧
    ((tankAttack ⟨⟨2, 2, 1, 100⟩, ⟨4, 2, 0, 100⟩, 0, ""⟩).enemy.hp = 60 ∧
     (tankAttack ⟨⟨2, 2, 1, 100⟩, ⟨4, 2, 0, 100⟩, 0, ""⟩).message = "ATTACK hit! Enemy -40 HP" ∧
     (tankAttack (tankAttack ⟨⟨2, 2, 1, 100⟩, ⟨4, 2, 0, 100⟩, 0, ""⟩)).enemy.hp = 20 ∧
     (tankAttack (tankAttack (tankAttack ⟨⟨2, 2, 1, 100⟩, ⟨4, 2, 0, 100⟩, 0, ""⟩))).enemy.hp = 0) := by
  constructor
  · intro w
    constructor
    · rintro ⟨h1, h2, h3⟩
      simp only [tankAttack, h1, h2, decide_eq_true_eq]
      rw [if_pos (by simp [h3])]
      exact ⟨rfl, rfl⟩
    · intro h
      simp only [tankAttack]
      split
      · rename_i hcond
        simp only [Bool.and_eq_true, decide_eq_true_eq] at hcond
        exact absurd ⟨hcond.1.1, hcond.1.2, hcond.2⟩ h
      · rfl
  · decide

/-- C5 witness: the general half of the theorem applied to the concrete
scenario world. -/
theorem C5_tankAttack_witness :
    (tankAttack ⟨⟨2, 2, 1, 100⟩, ⟨4, 2, 0, 100⟩, 0, ""⟩).enemy.hp =
      max 0 ((100 : Int) - 40) := by
  exact ((C5_tankAttack.1 ⟨⟨2, 2, 1, 100⟩, ⟨4, 2, 0, 100⟩, 0, ""⟩).1 (by decide)).1

/-- C8: with an empty stack and the top-level program counter at or past
the end, `stepProgram` reports `false` and changes nothing (so every
subsequent call is the same no-op); with an exhausted active frame it
pops exactly that frame, reports `true` and leaves the world unchanged. -/
theorem C8_idle_and_pop (prog : Program) (w : World) (rt : Runtime) :
    (rt.stack = [] → prog.stmts.length ≤ rt.pc →
      stepProgram prog w rt = ⟨w, rt, false⟩) ∧
    (∀ f rest, rt.stack = f :: rest → f.body.length ≤ f.pc →
      stepProgram prog w rt = ⟨w, { rt with stack := rest }, true⟩) := by
  constructor
  · intro hs hlen
    simp [stepProgram, hs, List.getElem?_eq_none hlen]
  · intro f rest hs hlen
    simp [stepProgram, hs, List.getElem?_eq_none hlen]

/-- C8 witness: the theorem applied to the empty program (idle half) and
to a runtime with one exhausted frame (pop half). -/
theorem C8_idle_and_pop_witness :
    stepProgram ⟨[], []⟩ makeInitialWorld makeRuntime =
      ⟨makeInitialWorld, makeRuntime, false⟩ ∧
    stepProgram ⟨[], []⟩ makeInitialWorld ⟨0, [⟨"f", 1, [Stmt.noop]⟩], [], 0⟩ =
      ⟨makeInitialWorld, ⟨0, [], [], 0⟩, true⟩ := by
  constructor
  · exact (C8_idle_and_pop ⟨[], []⟩ makeInitialWorld makeRuntime).1 rfl (by decide)
  · exact (C8_idle_and_pop ⟨[], []⟩ makeInitialWorld
      ⟨0, [⟨"f", 1, [Stmt.noop]⟩], [], 0⟩).2 ⟨"f", 1, [Stmt.noop]⟩ [] rfl (by decide)

/-- C2 (code bug): on the §8 scenario source the parser stores the
assignment value as the literal 0 — the greedy `(.+)` of the assignment
regex captures `"2;"`, whose `Number` parse is NaN — so step 1 sets
`MOVEMENT = 0` (not 2) and step 4 moves the actor 0 cells with message
`MOVE 0 FORWARD` (not 2 cells); steps 2, 3 and 5 behave as the claim
says. -/
theorem C2_scenario_divergence :
    c2prog.stmts =
      [Stmt.assign "MOVEMENT" (Expr.num 0), Stmt.scan,
       Stmt.ifS (Expr.var "ENEMY") Stmt.attack
         (some (Stmt.move (Expr.var "MOVEMENT") MDir.forward))] ∧
    (c2run 1).2.vars = [("MOVEMENT", 0)] ∧
    (c2run 1).1.message = "$MOVEMENT = 0" ∧
    lookupVar (c2run 2).2.vars "ENEMY" = some 0 ∧
    (c2run 2).1.message = "No enemy in sight." ∧
    (c2run 3).2.stack = [⟨"<if>", 0, [Stmt.move (Expr.var "MOVEMENT") MDir.forward]⟩] ∧
    (c2run 4).1.player.x = makeInitialWorld.player.x ∧
    (c2run 4).1.player.y = makeInitialWorld.player.y ∧
    (c2run 4).1.message = "MOVE 0 FORWARD" ∧
    (c2run 5).2.stack = [] ∧
    (stepProgram c2prog (c2run 4).1 (c2run 4).2).did = true :=
  ⟨rfl, rfl, rfl, rfl, rfl, rfl, rfl, rfl, rfl, rfl, rfl⟩

/-- `|Int.sign a|` is 0 for 0 and 1 otherwise. -/
theorem abs_sign_eq (a : Int) : |Int.sign a| = if a = 0 then 0 else 1 := by
  rcases lt_trichotomy a 0 with h | h | h
  · rw [Int.sign_eq_neg_one_of_neg h, if_neg (by omega)]; decide
  · simp [h]
  · rw [Int.sign_eq_one_of_pos h, if_neg (by omega)]; decide

/-- C1 counterexample: in `c1world` the opponent is alive, the firing
condition fails and the actor's horizontal offset (5) strictly exceeds
the vertical one (4), so the claim requires a horizontal reorientation
(facing 1 or 3); `enemyStep` instead turns the opponent to face down
(facing 2). -/
theorem C1_counterexample :
    0 < c1world.enemy.hp ∧
    enemyFires c1world = false ∧
    |c1world.player.x - c1world.enemy.x| > |c1world.player.y - c1world.enemy.y| ∧
    (enemyStep c1world).enemy.dir = 2 ∧
    ¬((enemyStep c1world).enemy.dir = 1 ∨ (enemyStep c1world).enemy.dir = 3) := by
  decide

/-- C1 (amended): when the opponent is alive and the firing condition
does not hold, `enemyStep` reorients it to face the actor choosing the
horizontal axis only when the vertical offset is zero and the horizontal
offset nonzero, and the vertical axis otherwise (down when the actor is
strictly below, else up), then moves it exactly one cell along the new
facing with both coordinates clamped into `[0, GRID-1]`; the actor, the
opponent's health and the message are untouched. -/
theorem C1_enemyStep_amended (w : World)
    (hhp : 0 < w.enemy.hp) (hfire : enemyFires w = false) :
    (enemyStep w).enemy.dir = enemyPref w ∧
    (enemyStep w).enemy.x = clamp (w.enemy.x + (DIRS (enemyPref w)).1) 0 (GRID - 1) ∧
    (enemyStep w).enemy.y = clamp (w.enemy.y + (DIRS (enemyPref w)).2) 0 (GRID - 1) ∧
    (enemyStep w).player = w.player ∧
    (enemyStep w).enemy.hp = w.enemy.hp ∧
    (enemyStep w).message = w.message := by
  have hgx : (Int.sign (w.player.x - w.enemy.x) > 0) ↔ (w.enemy.x < w.player.x) := by
    rw [gt_iff_lt, sign_pos_iff]; omega
  have hgy : (Int.sign (w.player.y - w.enemy.y) > 0) ↔ (w.enemy.y < w.player.y) := by
    rw [gt_iff_lt, sign_pos_iff]; omega
  have hpref :
      (if |Int.sign (w.player.x - w.enemy.x)| > |Int.sign (w.player.y - w.enemy.y)| then
        (if Int.sign (w.player.x - w.enemy.x) > 0 then 1 else 3)
      else (if Int.sign (w.player.y - w.enemy.y) > 0 then 2 else 0)) = enemyPref w := by
    rw [abs_sign_eq, abs_sign_eq]
    unfold enemyPref
    by_cases h1 : w.player.y = w.enemy.y <;> by_cases h2 : w.player.x = w.enemy.x <;>
      simp [h1, h2, sub_eq_zero, hgx, hgy]
  simp only [enemyStep, if_neg (by omega : ¬ w.enemy.hp ≤ 0), hfire, Bool.false_eq_true,
    if_false, hpref]
  exact ⟨trivial, trivial, trivial, trivial, trivial, trivial⟩

/-- C1 amended-claim witness: the theorem applied to the counterexample
world (vertical offset nonzero, so the opponent faces down and steps to
`(0, 1)`). -/
theorem C1_enemyStep_amended_witness :
    (enemyStep c1world).enemy.dir = enemyPref c1world ∧
    (enemyStep c1world).enemy.x = clamp (c1world.enemy.x + (DIRS (enemyPref c1world)).1) 0 (GRID - 1) := by
  have h := C1_enemyStep_amended c1world (by decide) (by decide)
  exact ⟨h.1, h.2.1⟩

/-- The `advance` closure leaves the stack shape alone apart from the top
frame's program counter. -/
theorem advanceRT_cons (rt : Runtime) (f : Frame) (rest : List Frame)
    (h : rt.stack = f :: rest) :
    (advanceRT rt).stack = { f with pc := f.pc + 1 } :: rest ∧
    (advanceRT rt).pc = rt.pc := by
  simp [advanceRT, h]

/-- Executing a non-pushing statement only advances the active program
counter: the resulting stack and top-level counter are those of
`advanceRT`. -/
theorem execStmt_simple_stack (prog : Program) (w : World) (rt : Runtime) (s : Stmt)
    (hs : simpleKind s = true) :
    (execStmt prog w rt s).rt.stack = (advanceRT rt).stack ∧
    (execStmt prog w rt s).rt.pc = (advanceRT rt).pc := by
  cases s with
  | assign name value =>
      simp only [execStmt]
      cases h : rt.stack <;> simp [advanceRT, h]
  | move amount dir => simp [execStmt]
  | turn dir => simp [execStmt]
  | scan =>
      simp only [execStmt, tankScan]
      cases h : rt.stack <;> simp [advanceRT, h]
  | attack => simp [execStmt]
  | ifS cond thenStmt elseStmt => simp [simpleKind] at hs
  | call name => simp [simpleKind] at hs
  | noop => simp [execStmt]
  | func name body => simp [execStmt]

/-- C10: when the active statement is an `IF` that selects a branch,
`stepProgram` pushes the single-statement `<if>` frame and advances no
program counter; popping an exhausted frame also never touches the
remaining counters; hence after the branch statement (when it pushes no
frame itself) runs and its frame is popped, the very same `IF` statement
is active again. -/
theorem C10_if_never_advances (prog : Program) (w : World) (rt : Runtime)
    (c : Expr) (t : Stmt) (e : Option Stmt) (s : Stmt)
    (hact : activeStmt prog rt = some (Stmt.ifS c t e))
    (hchosen : (if getVal c rt ≠ 0 then some t else e) = some s) :
    stepProgram prog w rt = ⟨w, { rt with stack := ⟨"<if>", 0, [s]⟩ :: rt.stack }, true⟩ ∧
    (∀ (w2 : World) (rt2 : Runtime) (f : Frame) (rest : List Frame),
      rt2.stack = f :: rest → f.body.length ≤ f.pc →
      (stepProgram prog w2 rt2).rt = { rt2 with stack := rest } ∧
      (stepProgram prog w2 rt2).rt.pc = rt2.pc) ∧
    (simpleKind s = true →
      (runSteps prog 2 (w, { rt with stack := ⟨"<if>", 0, [s]⟩ :: rt.stack })).2.stack = rt.stack ∧
      (runSteps prog 2 (w, { rt with stack := ⟨"<if>", 0, [s]⟩ :: rt.stack })).2.pc = rt.pc ∧
      activeStmt prog (runSteps prog 2 (w, { rt with stack := ⟨"<if>", 0, [s]⟩ :: rt.stack })).2 =
        some (Stmt.ifS c t e)) := by
  refine ⟨?_, ?_, ?_⟩
  · unfold activeStmt at hact
    cases hstk : rt.stack with
    | nil =>
        rw [hstk] at hact
        have hact2 : prog.stmts[rt.pc]? = some (Stmt.ifS c t e) := hact
        simp only [stepProgram, hstk, hact2, execStmt, hchosen]
    | cons f rest =>
        rw [hstk] at hact
        have hact2 : f.body[f.pc]? = some (Stmt.ifS c t e) := hact
        simp only [stepProgram, hstk, hact2, execStmt, hchosen]
  · intro w2 rt2 f rest h2 hlen
    simp [stepProgram, h2, List.getElem?_eq_none hlen]
  · intro hsimple
    have hstep1 :
        (stepProgram prog w { rt with stack := ⟨"<if>", 0, [s]⟩ :: rt.stack }).rt.stack =
          ⟨"<if>", 1, [s]⟩ :: rt.stack ∧
        (stepProgram prog w { rt with stack := ⟨"<if>", 0, [s]⟩ :: rt.stack }).rt.pc = rt.pc := by
      have hx := execStmt_simple_stack prog w { rt with stack := ⟨"<if>", 0, [s]⟩ :: rt.stack }
        s hsimple
      have hy := advanceRT_cons { rt with stack := ⟨"<if>", 0, [s]⟩ :: rt.stack }
        ⟨"<if>", 0, [s]⟩ rt.stack rfl
      simp only [stepProgram] at *
      simp only [List.getElem?_cons_zero] at *
      exact ⟨by rw [hx.1, hy.1], by rw [hx.2, hy.2]⟩
    set rt1 := (stepProgram prog w { rt with stack := ⟨"<if>", 0, [s]⟩ :: rt.stack }).rt with hrt1
    have hstep2 :
        (stepProgram prog (stepProgram prog w { rt with stack := ⟨"<if>", 0, [s]⟩ :: rt.stack }).world rt1).rt.stack = rt.stack ∧
        (stepProgram prog (stepProgram prog w { rt with stack := ⟨"<if>", 0, [s]⟩ :: rt.stack }).world rt1).rt.pc = rt.pc := by
      have h2 := hstep1.1
      have h2pc := hstep1.2
      constructor
      · simp [stepProgram, h2]
      · simp [stepProgram, h2, h2pc]
    have hrun : (runSteps prog 2 (w, { rt with stack := ⟨"<if>", 0, [s]⟩ :: rt.stack })).2 =
        (stepProgram prog (stepProgram prog w { rt with stack := ⟨"<if>", 0, [s]⟩ :: rt.stack }).world rt1).rt := by
      simp [runSteps]
    refine ⟨by rw [hrun]; exact hstep2.1, by rw [hrun]; exact hstep2.2, ?_⟩
    rw [hrun]
    unfold activeStmt at hact ⊢
    rw [hstep2.1, hstep2.2]
    exact hact

/-- C10 witness: a one-statement program whose `IF` selects its
then-branch: the step pushes the `<if>` frame without advancing, and two
steps later the same `IF` is active again. -/
theorem C10_if_never_advances_witness :
    stepProgram ⟨[Stmt.ifS (Expr.num 1) Stmt.noop none], []⟩ makeInitialWorld makeRuntime =
      ⟨makeInitialWorld, { makeRuntime with stack := [⟨"<if>", 0, [Stmt.noop]⟩] }, true⟩ ∧
    activeStmt ⟨[Stmt.ifS (Expr.num 1) Stmt.noop none], []⟩
      (runSteps ⟨[Stmt.ifS (Expr.num 1) Stmt.noop none], []⟩ 2
        (makeInitialWorld, { makeRuntime with stack := [⟨"<if>", 0, [Stmt.noop]⟩] })).2 =
      some (Stmt.ifS (Expr.num 1) Stmt.noop none) := by
  have h := C10_if_never_advances ⟨[Stmt.ifS (Expr.num 1) Stmt.noop none], []⟩
    makeInitialWorld makeRuntime (Expr.num 1) Stmt.noop none Stmt.noop rfl
    (if_pos (by decide))
  exact ⟨h.1, (h.2.2 rfl).2.2⟩

/-- Stepping with an active frame whose current statement pushes no
frame: the frame's counter advances, everything else of the stack and the
top-level counter stays. -/
theorem step_frame_simple (prog : Program) (w : World) (rt : Runtime)
    (nm : String) (k : Nat) (body : List Stmt) (S : List Frame)
    (hstk : rt.stack = ⟨nm, k, body⟩ :: S) (hk : k < body.length)
    (hs : simpleKind (body.get ⟨k, hk⟩) = true) :
    (stepProgram prog w rt).rt.stack = ⟨nm, k + 1, body⟩ :: S ∧
    (stepProgram prog w rt).rt.pc = rt.pc := by
  have hget : body[k]? = some (body.get ⟨k, hk⟩) := by
    simp [List.getElem?_eq_getElem hk]
  have hexec := execStmt_simple_stack prog w rt (body.get ⟨k, hk⟩) hs
  have hadv := advanceRT_cons rt ⟨nm, k, body⟩ S hstk
  constructor
  · simp only [stepProgram, hstk, hget]
    rw [hexec.1, hadv.1]
  · simp only [stepProgram, hstk, hget]
    rw [hexec.2, hadv.2]

/-- Draining a frame of non-pushing statements: from statement `k`,
after `j` more steps (with `k + j` still at most the body length) the
frame sits at statement `k + j` and nothing else has moved. -/
theorem drain_frame (prog : Program) (nm : String) (body : List Stmt)
    (hsimple : ∀ s ∈ body, simpleKind s = true) :
    ∀ (j k : Nat) (w : World) (rt : Runtime) (S : List Frame),
      rt.stack = ⟨nm, k, body⟩ :: S → k + j ≤ body.length →
      (runSteps prog j (w, rt)).2.stack = ⟨nm, k + j, body⟩ :: S ∧
      (runSteps prog j (w, rt)).2.pc = rt.pc := by
  intro j
  induction j with
  | zero =>
      intro k w rt S hstk hle
      constructor
      · simpa [runSteps] using hstk
      · rfl
  | succ j ih =>
      intro k w rt S hstk hle
      have hk : k < body.length := by omega
      have hs := hsimple (body.get ⟨k, hk⟩) (body.get_mem k hk)
      have hstep := step_frame_simple prog w rt nm k body S hstk hk hs
      have hrec := ih (k + 1) (stepProgram prog w rt).world (stepProgram prog w rt).rt S
        hstep.1 (by omega)
      have hpeel : runSteps prog (j + 1) (w, rt) =
          runSteps prog j ((stepProgram prog w rt).world, (stepProgram prog w rt).rt) := rfl
      have hplus : k + 1 + j = k + (j + 1) := by omega
      rw [hpeel]
      exact ⟨by rw [hrec.1, hplus], by rw [hrec.2, hstep.2]⟩

/-- C3 counterexample: with `Patrol` mapped to the single statement
`IF 1 THEN ATTACK` (N = 1), after the step that executes `CALL Patrol`,
N + 1 = 2 further steps leave two frames on the stack (the `IF` pushed a
second frame), so control has not returned to the statement after the
call site. -/
theorem C3_counterexample :
    (c3run 1).2.stack = [⟨"Patrol", 0, [Stmt.ifS (Expr.num 1) Stmt.attack none]⟩] ∧
    (c3run 1).2.pc = 1 ∧
    (c3run 3).2.stack.length = 2 :=
  ⟨rfl, rfl, rfl⟩

/-- C3 (amended): when the function body consists only of statements
that push no frame (no `CALL`, no branch-selecting `IF`), then after the
call executes, for every `k ≤ N` the frame is still active (control has
not returned), and after exactly N + 1 further steps the frame is gone
and every other program counter is as the call left it. -/
theorem C3_call_drain_amended (prog : Program) (w : World) (rt : Runtime)
    (nm : String) (body : List Stmt) (S : List Frame)
    (hstack : rt.stack = ⟨nm, 0, body⟩ :: S)
    (hsimple : ∀ s ∈ body, simpleKind s = true) :
    (∀ k, k ≤ body.length →
      (runSteps prog k (w, rt)).2.stack = ⟨nm, k, body⟩ :: S ∧
      (runSteps prog k (w, rt)).2.pc = rt.pc) ∧
    ((runSteps prog (body.length + 1) (w, rt)).2.stack = S ∧
     (runSteps prog (body.length + 1) (w, rt)).2.pc = rt.pc) := by
  have hdrain := drain_frame prog nm body hsimple
  constructor
  · intro k hk
    have h := hdrain k 0 w rt S hstack (by omega)
    simpa using h
  · have hN := hdrain body.length 0 w rt S hstack (by omega)
    have hpeel : ∀ (n : Nat) (st : World × Runtime),
        runSteps prog (n + 1) st =
          (fun st2 => ((stepProgram prog st2.1 st2.2).world,
            (stepProgram prog st2.1 st2.2).rt)) (runSteps prog n st) := by
      intro n
      induction n with
      | zero => intro st; rfl
      | succ n ih => intro st; rw [runSteps, ih]; rfl
    rw [hpeel body.length (w, rt)]
    have hstk2 := hN.1
    have hpc2 := hN.2
    simp only at hstk2 ⊢
    have hnone : body[(⟨nm, 0 + body.length, body⟩ : Frame).pc]? = none := by
      simp
    constructor
    · simp only [stepProgram, hstk2]
      simp
    · simp only [stepProgram, hstk2]
      simp [hpc2]

/-- C3 amended-claim witness: draining a two-statement body (`NOOP;
ATTACK`) takes exactly 3 steps and restores the caller's counter 5. -/
theorem C3_call_drain_amended_witness :
    (runSteps ⟨[], [("Patrol", [Stmt.noop, Stmt.attack])]⟩ 3
      (makeInitialWorld, ⟨5, [⟨"Patrol", 0, [Stmt.noop, Stmt.attack]⟩], [], 0⟩)).2.stack = [] ∧
    (runSteps ⟨[], [("Patrol", [Stmt.noop, Stmt.attack])]⟩ 3
      (makeInitialWorld, ⟨5, [⟨"Patrol", 0, [Stmt.noop, Stmt.attack]⟩], [], 0⟩)).2.pc = 5 := by
  have h := C3_call_drain_amended ⟨[], [("Patrol", [Stmt.noop, Stmt.attack])]⟩
    makeInitialWorld ⟨5, [⟨"Patrol", 0, [Stmt.noop, Stmt.attack]⟩], [], 0⟩
    "Patrol" [Stmt.noop, Stmt.attack] [] rfl
    (by
      intro s hs
      cases hs with
      | head => rfl
      | tail _ h2 =>
          cases h2 with
          | head => rfl
          | tail _ h3 => cases h3)
  exact h.2

/-- `clamp v 0 (GRID-1)` always lands on the grid. -/
theorem clamp_bounds (v : Int) : 0 ≤ clamp v 0 (GRID - 1) ∧ clamp v 0 (GRID - 1) < GRID := by
  unfold clamp GRID
  constructor
  · exact le_max_left 0 _
  · have h1 : min (20 - 1 : Int) v ≤ 20 - 1 := min_le_left _ _
    have h2 : max 0 (min (20 - 1 : Int) v) ≤ 20 - 1 := max_le (by norm_num) h1
    omega

/-- One clamped unit move keeps the tank invariant. -/
theorem moveOnce_inv (dx dy : Int) (t : Tank) (h : TankInv t) : TankInv (moveOnce dx dy t) := by
  unfold TankInv at h ⊢
  obtain ⟨-, -, -, -, h5, h6, h7⟩ := h
  have hx := clamp_bounds (t.x + dx)
  have hy := clamp_bounds (t.y + dy)
  exact ⟨hx.1, hx.2, hy.1, hy.2, h5, h6, h7⟩

/-- Iterating clamped unit moves keeps the tank invariant. -/
theorem iterate_moveOnce_inv (dx dy : Int) (n : Nat) (t : Tank) (h : TankInv t) :
    TankInv ((moveOnce dx dy)^[n] t) := by
  induction n with
  | zero => simpa using h
  | succ n ih =>
      rw [Function.iterate_succ_apply']
      exact moveOnce_inv dx dy _ ih

/-- `tankMove` keeps the world invariant. -/
theorem tankMove_inv (w : World) (d : MDir) (n : Nat) (h : WorldInv w) :
    WorldInv (tankMove w d n) :=
  ⟨iterate_moveOnce_inv _ _ n w.player h.1, h.2⟩

/-- `tankTurn` keeps the world invariant. -/
theorem tankTurn_inv (w : World) (s : TDir) (h : WorldInv w) : WorldInv (tankTurn w s) := by
  obtain ⟨⟨p1, p2, p3, p4, p5, p6, _⟩, he⟩ := h
  exact ⟨⟨p1, p2, p3, p4, p5, p6, Nat.mod_lt _ (by norm_num)⟩, he⟩

/-- `tankAttack` keeps the world invariant. -/
theorem tankAttack_inv (w : World) (h : WorldInv w) : WorldInv (tankAttack w) := by
  simp only [tankAttack]
  split
  · obtain ⟨hp, ⟨e1, e2, e3, e4, e5, e6, e7⟩⟩ := h
    exact ⟨hp, e1, e2, e3, e4, le_max_left _ _, max_le (by norm_num) (by omega), e7⟩
  · exact h

/-- Every statement dispatch keeps the world invariant. -/
theorem execStmt_inv (prog : Program) (w : World) (rt : Runtime) (s : Stmt)
    (h : WorldInv w) : WorldInv (execStmt prog w rt s).world := by
  cases s with
  | assign name value => exact ⟨h.1, h.2⟩
  | move amount dir =>
      have := tankMove_inv w dir (max 0 (getVal amount rt).floor).toNat h
      exact ⟨this.1, this.2⟩
  | turn dir =>
      have := tankTurn_inv w dir h
      exact ⟨this.1, this.2⟩
  | scan => exact ⟨h.1, h.2⟩
  | attack => exact tankAttack_inv w h
  | ifS cond thenStmt elseStmt =>
      simp only [execStmt]
      split
      · exact h
      · exact ⟨h.1, h.2⟩
  | call name => exact ⟨h.1, h.2⟩
  | noop => exact h
  | func name body => exact h

/-- One interpreter step keeps the world invariant. -/
theorem stepProgram_inv (prog : Program) (w : World) (rt : Runtime) (h : WorldInv w) :
    WorldInv (stepProgram prog w rt).world := by
  unfold stepProgram
  cases hstk : rt.stack with
  | nil =>
      cases hget : prog.stmts[rt.pc]? with
      | none => simp only [hget]; simpa using h
      | some stmt => simp only [hget]; simpa using execStmt_inv prog w rt stmt h
  | cons f rest =>
      cases hget : f.body[f.pc]? with
      | none => simp only [hget]; simpa using h
      | some stmt => simp only [hget]; simpa using execStmt_inv prog w rt stmt h

/-- The opponent policy keeps the world invariant. -/
theorem enemyStep_inv (w : World) (h : WorldInv w) : WorldInv (enemyStep w) := by
  simp only [enemyStep]
  split
  · exact h
  · split
    · obtain ⟨⟨p1, p2, p3, p4, p5, p6, p7⟩, he⟩ := h
      exact ⟨⟨p1, p2, p3, p4, le_max_left _ _, max_le (by norm_num) (by omega), p7⟩, he⟩
    · obtain ⟨hpl, ⟨e1, e2, e3, e4, e5, e6, e7⟩⟩ := h
      refine ⟨hpl, (clamp_bounds _).1, (clamp_bounds _).2, (clamp_bounds _).1,
        (clamp_bounds _).2, e5, e6, ?_⟩
      split
      · split <;> norm_num
      · split <;> norm_num

/-- C6: every world reachable from the initial world by interleaving
`stepProgram` (any program, any runtime) and `enemyStep` keeps both
tanks on the grid (`0 ≤ x, y < GRID`), health in `[0, 100]` and the
facing in `{0, 1, 2, 3}`; in particular no sequence of `MOVE`s ever
leaves the grid. -/
theorem C6_reach_invariant (w : World) (h : Reach w) : WorldInv w := by
  induction h with
  | init => decide
  | stepP prog rt _ ih => exact stepProgram_inv prog _ rt ih
  | stepE _ ih => exact enemyStep_inv _ ih

/-- C6 witness: the invariant holds at the world reached by one enemy
step from the initial world. -/
theorem C6_reach_invariant_witness : WorldInv (enemyStep makeInitialWorld) :=
  C6_reach_invariant _ (Reach.stepE Reach.init)

/-- `dropWhile` never lengthens a list. -/
theorem length_dropWhile_le {α : Type} (p : α → Bool) (l : List α) :
    (l.dropWhile p).length ≤ l.length := by
  induction l with
  | nil => simp [List.dropWhile]
  | cons a as ih =>
      rw [List.dropWhile]
      split
      · simp only [List.length_cons]; omega
      · simp

/-- The post-block remainder is never longer than the scanned lines. -/
theorem afterBlock_length_le (rest : List (List Char)) :
    (afterBlock rest).length ≤ rest.length := by
  have hdrop := length_dropWhile_le (fun l => !isEndLine l) rest
  unfold afterBlock
  split
  · simp
  · rename_i a b heq
    rw [heq] at hdrop
    simp only [List.length_cons] at hdrop
    split
    · omega
    · simp only [List.length_cons]; omega

/-- `takeWhile` and `dropWhile` over `body ++ e :: rest` cut exactly at
`e` when every element of `body` satisfies the predicate and `e` does
not. -/
theorem takeWhile_middle {α : Type} (p : α → Bool) (body : List α) (e : α) (rest : List α)
    (hb : ∀ l ∈ body, p l = true) (he : p e = false) :
    (body ++ e :: rest).takeWhile p = body ∧
    (body ++ e :: rest).dropWhile p = e :: rest := by
  induction body with
  | nil => simp [List.takeWhile, List.dropWhile, he]
  | cons a as ih =>
      have ha : p a = true := hb a (by simp)
      have ih2 := ih (fun l hl => hb l (by simp [hl]))
      constructor
      · simp only [List.cons_append, List.takeWhile_cons, ha, if_true, ih2.1]
      · simp only [List.cons_append, List.dropWhile_cons, ha, if_true, ih2.2]

/-- The tokenizer loop's value does not depend on the fuel, as long as
the fuel covers the number of lines. -/
theorem tokLoopF_fuel (f1 : Nat) :
    ∀ (f2 : Nat) (lines : List (List Char)), lines.length ≤ f1 → lines.length ≤ f2 →
      tokLoopF f1 lines = tokLoopF f2 lines := by
  induction f1 with
  | zero =>
      intro f2 lines h1 h2
      have hnil : lines = [] := List.length_eq_zero.mp (by omega)
      subst hnil
      cases f2 <;> rfl
  | succ f ih =>
      intro f2 lines h1 h2
      cases lines with
      | nil => cases f2 <;> rfl
      | cons line rest =>
          cases f2 with
          | zero => simp at h2
          | succ f2a =>
              simp only [tokLoopF]
              simp only [List.length_cons] at h1 h2
              split
              · congr 1
                exact ih f2a (afterBlock rest)
                  (le_trans (afterBlock_length_le rest) (by omega))
                  (le_trans (afterBlock_length_le rest) (by omega))
              · congr 1
                exact ih f2a rest (by omega) (by omega)

/-- Reaching a suffix decomposes the token stream: the tokens of the
whole line list are some emitted prefix followed by the tokens of the
suffix. -/
theorem reach_decompose (lines suffix : List (List Char))
    (h : TokReaches lines suffix) :
    ∃ ts, tokLoopF lines.length lines = ts ++ tokLoopF suffix.length suffix := by
  induction h with
  | start => exact ⟨[], rfl⟩
  | @plain line rest hr hnf ih =>
      obtain ⟨ts, hts⟩ := ih
      refine ⟨ts ++ splitSemis line, ?_⟩
      rw [hts]
      have hstep : tokLoopF (line :: rest).length (line :: rest)
          = splitSemis line ++ tokLoopF rest.length rest := by
        simp [tokLoopF, hnf]
      rw [hstep, List.append_assoc]
  | @block line rest hr hf ih =>
      obtain ⟨ts, hts⟩ := ih
      refine ⟨ts ++ [List.intercalate ['\n']
        (line :: (rest.takeWhile (fun l => !isEndLine l) ++ ["END".data]))], ?_⟩
      rw [hts]
      have hstep : tokLoopF (line :: rest).length (line :: rest)
          = List.intercalate ['\n']
              (line :: (rest.takeWhile (fun l => !isEndLine l) ++ ["END".data]))
            :: tokLoopF rest.length (afterBlock rest) := by
        simp only [List.length_cons, tokLoopF, hf, if_true]
      have hfuel : tokLoopF rest.length (afterBlock rest)
          = tokLoopF (afterBlock rest).length (afterBlock rest) :=
        tokLoopF_fuel _ _ _ (afterBlock_length_le rest) (le_refl _)
      rw [hstep, hfuel, List.append_assoc, List.singleton_append]

/-- C9: whenever the tokenizer's scan arrives at a `FUNCTION` header
followed by body lines (none an `END` line) and an `END` line — at any
position of any source's prepared line list — `tokenize` emits that
block as exactly one token inside the token stream: the header, the
body lines and a literal `END` joined by newlines, after which the
remaining lines are scanned as usual.  Blank lines and `//` comments
inside the block never reach this stage: `omegaLines` (the
`stripComments` + trim + filter preprocessing) has already removed
them. -/
theorem C9_function_block_atomic (code : List Char) (header endline : List Char)
    (body rest : List (List Char))
    (hreach : TokReaches (omegaLines code) (header :: body ++ endline :: rest))
    (hheader : isFunctionHeader header = true)
    (hbody : ∀ l ∈ body, isEndLine l = false)
    (hend : isEndLine endline = true) :
    tokLoopF (header :: body ++ endline :: rest).length (header :: body ++ endline :: rest) =
      List.intercalate ['\n'] (header :: (body ++ ["END".data])) ::
        tokLoopF rest.length rest ∧
    ∃ ts, tokenize code =
      ts ++ List.intercalate ['\n'] (header :: (body ++ ["END".data])) ::
        tokLoopF rest.length rest := by
  have htw := takeWhile_middle (fun l => !isEndLine l) body endline rest
    (fun l hl => by simp [hbody l hl]) (by simp [hend])
  have hafter : afterBlock (body ++ endline :: rest) = rest := by
    unfold afterBlock
    rw [htw.2]
    simp [hend]
  have hstep : tokLoopF (header :: body ++ endline :: rest).length
      (header :: body ++ endline :: rest) =
      List.intercalate ['\n'] (header :: (body ++ ["END".data])) ::
        tokLoopF rest.length rest := by
    have hlen : (header :: body ++ endline :: rest).length
        = (body.length + rest.length + 1) + 1 := by simp; omega
    rw [hlen]
    simp only [tokLoopF, hheader, if_true]
    simp only [List.append_eq]
    congr 1
    · rw [htw.1]
    · rw [hafter]
      exact tokLoopF_fuel _ _ _ (by omega) (le_refl _)
  refine ⟨hstep, ?_⟩
  obtain ⟨ts, hts⟩ := reach_decompose _ _ hreach
  refine ⟨ts, ?_⟩
  unfold tokenize
  rw [hts, hstep]

/-- C9 witness: in `c9code` the function block sits after an ordinary
statement and contains a blank line and a comment line; it still becomes
exactly one token inside the stream. -/
theorem C9_function_block_atomic_witness :
    tokLoopF ("FUNCTION f:".data :: ["TURN LEFT;".data] ++ "END".data :: ["ATTACK;".data]).length
      ("FUNCTION f:".data :: ["TURN LEFT;".data] ++ "END".data :: ["ATTACK;".data]) =
      List.intercalate ['\n']
        ("FUNCTION f:".data :: (["TURN LEFT;".data] ++ ["END".data])) ::
        tokLoopF ["ATTACK;".data].length ["ATTACK;".data] ∧
    ∃ ts, tokenize c9code.data =
      ts ++ List.intercalate ['\n']
        ("FUNCTION f:".data :: (["TURN LEFT;".data] ++ ["END".data])) ::
        tokLoopF ["ATTACK;".data].length ["ATTACK;".data] := by
  exact C9_function_block_atomic c9code.data "FUNCTION f:".data "END".data
    ["TURN LEFT;".data] ["ATTACK;".data]
    (@TokReaches.plain (omegaLines c9code.data) "MOVE 1 FORWARD;".data
      ("FUNCTION f:".data :: ["TURN LEFT;".data] ++ "END".data :: ["ATTACK;".data])
      TokReaches.start (by decide))
    (by decide)
    (by
      intro l hl
      cases hl with
      | head => rfl
      | tail _ h2 => cases h2)
    (by decide)

end OmegaTanks
